import Mathlib

/-!
Verification of the Session State and Resume Reconstruction subsystem of the
happy-cli repository: a shallow embedding in Lean 4 of the diff
de-duplication state machine (DiffProcessor), the daemon session registry
(session markers and persisted sessions), and the Codex transcript resume
resolver, together with theorems that settle the specification claims.

Modelling conventions:
- JavaScript strings are Lean `String`s; where character-level processing
  matters (trimming, slicing, length caps) we work on `String.data`, the
  underlying `List Char`.
- JSON values are the inductive `Json` below; a numeric literal carries a
  flag recording whether it is an integer, which is what the zod `.int()`
  refinement observes.
- File-system reads appear as already-classified inputs: `none` models a
  read that throws, `some none` a file whose body is not valid JSON, and
  `some (some j)` a file whose body parses to `j`.  Subprocess execution is
  modelled the same way (`none` = spawn or runtime error).
- `randomUUID()` correlation identifiers are modelled by a counter supply
  threaded through `flush`; freshness is distinctness of counter values.
-/

/-- Uninterpreted JSON value.  `num intFlag n` models a JSON number; the
flag records whether the literal is an integer (what zod `.int()` checks).
Object fields are ordered key-value pairs; lookups take the first match. -/
inductive Json where
  | null : Json
  | bool (b : Bool) : Json
  | num (isInt : Bool) (n : Int) : Json
  | str (s : String) : Json
  | arr (elems : List Json) : Json
  | obj (fields : List (String × Json)) : Json

/-- Field access `j?.key` : returns the field value when `j` is an object
that has the key, otherwise `none` (optional chaining on non-objects). -/
def Json.getField? (j : Json) (key : String) : Option Json :=
  match j with
  | .obj fields => List.lookup key fields
  | _ => none

/-- Character class of JavaScript `String.prototype.trim`: space, tab,
line feed, carriage return, vertical tab, form feed and no-break space
(the code points that occur in this code base). -/
def isJsWhitespace (c : Char) : Bool :=
  c = ' ' || c = '\t' || c = '\n' || c = '\r' || c = '\x0b' || c = '\x0c' || c = '\u00A0'

/-- JavaScript `text.trim()` on the character list of a string: drop
whitespace from both ends. -/
def jsTrim (t : List Char) : List Char :=
  ((t.dropWhile isJsWhitespace).reverse.dropWhile isJsWhitespace).reverse

/- ----------------------------------------------------------------------
Diff Change Tracker: shallow embedding of `DiffProcessor`
(src/unnamed/part_001).
---------------------------------------------------------------------- -/

/-- Configuration consumed by the diff processor: the flag that disables
Codex diff emission (`configuration.disableCodexDiffs`). -/
structure Configuration where
  disableCodexDiffs : Bool
deriving DecidableEq, Repr

/-- Mutable fields of a `DiffProcessor` instance. -/
structure DiffState where
  previousDiff : Option String
  sentDiff : Option String
  patchAppliedThisTurn : Bool
deriving DecidableEq, Repr

/-- Field initializers of `DiffProcessor`: all three fields start out
null / false. -/
def initialDiffState : DiffState :=
  { previousDiff := none, sentDiff := none, patchAppliedThisTurn := false }

/-- Messages delivered to the `onMessage` callback.  `toolCall` carries the
tool name, the correlation `callId`, the `input.unified_diff` payload and
the event `id`; `toolCallResult` carries the `callId`, the `output.status`
string and the event `id`.  Identifiers are counter values (see header). -/
inductive DiffEvent where
  | toolCall (name : String) (callId : Nat) (unified_diff : String) (id : Nat)
  | toolCallResult (callId : Nat) (status : String) (id : Nat)
deriving DecidableEq, Repr

/-- `DiffProcessor.processDiff`: both the suppressed and the normal branch
store the incoming diff in `previousDiff` (they differ only in logging). -/
def processDiff (cfg : Configuration) (s : DiffState) (unifiedDiff : String) : DiffState :=
  if cfg.disableCodexDiffs then
    { s with previousDiff := some unifiedDiff }
  else
    { s with previousDiff := some unifiedDiff }

/-- `DiffProcessor.flush`: emits the buffered diff once as a
tool-call / tool-call-result pair, unless emission is disabled, a patch was
applied this turn, the buffered diff is falsy (null or the empty string),
or it equals the last sent diff.  The `Nat` argument is the UUID supply;
the source draws `callId`, then the tool-call `id`, then the result `id`.
Returns the emitted events, the new state and the new supply. -/
def flush (cfg : Configuration) (s : DiffState) (n : Nat) :
    List DiffEvent × DiffState × Nat :=
  if cfg.disableCodexDiffs then ([], s, n)
  else if s.patchAppliedThisTurn then ([], s, n)
  else
    match s.previousDiff with
    | none => ([], s, n)
    | some unifiedDiff =>
      if unifiedDiff = "" then ([], s, n)
      else if s.sentDiff = some unifiedDiff then ([], s, n)
      else
        ([ DiffEvent.toolCall "CodexDiff" n unifiedDiff (n + 1),
           DiffEvent.toolCallResult n "completed" (n + 2) ],
         { s with sentDiff := some unifiedDiff }, n + 3)

/-- `DiffProcessor.reset`: clears `previousDiff` and the patch flag; it
does not touch `sentDiff`. -/
def reset (s : DiffState) : DiffState :=
  { s with previousDiff := none, patchAppliedThisTurn := false }

/-- `DiffProcessor.markPatchApplied`: sets the suppression flag. -/
def markPatchApplied (s : DiffState) : DiffState :=
  { s with patchAppliedThisTurn := true }

/-- Operations an owner of a `DiffProcessor` can perform during a session. -/
inductive DiffOp where
  | record (d : String)
  | flushOp
  | resetOp
  | markPatchAppliedOp
deriving DecidableEq, Repr

/-- One operation applied to a processor state plus UUID supply, returning
the events it emits. -/
def stepDiff (cfg : Configuration) (st : DiffState × Nat) (op : DiffOp) :
    (DiffState × Nat) × List DiffEvent :=
  match op with
  | .record d => ((processDiff cfg st.1 d, st.2), [])
  | .flushOp =>
    let r := flush cfg st.1 st.2
    ((r.2.1, r.2.2), r.1)
  | .resetOp => ((reset st.1, st.2), [])
  | .markPatchAppliedOp => ((markPatchApplied st.1, st.2), [])

/-- Run a sequence of operations, concatenating all emitted events. -/
def runDiff (cfg : Configuration) (st : DiffState × Nat) :
    List DiffOp → (DiffState × Nat) × List DiffEvent
  | [] => (st, [])
  | op :: ops =>
    let r := stepDiff cfg st op
    let r' := runDiff cfg r.1 ops
    (r'.1, r.2 ++ r'.2)

/-- The unified diffs carried by the tool-call events of an event list, in
emission order. -/
def emittedDiffs (events : List DiffEvent) : List String :=
  events.filterMap fun e =>
    match e with
    | .toolCall _ _ d _ => some d
    | .toolCallResult _ _ _ => none

/-- The sample enabled configuration: diff emission is not disabled. -/
def cfgEnabled : Configuration := { disableCodexDiffs := false }

/-- `processDiff` never changes `sentDiff`. -/
theorem processDiff_sentDiff (cfg : Configuration) (s : DiffState) (d : String) :
    (processDiff cfg s d).sentDiff = s.sentDiff := by
  unfold processDiff; split <;> rfl

/-- `emittedDiffs` distributes over event-list concatenation. -/
theorem emittedDiffs_append (a b : List DiffEvent) :
    emittedDiffs (a ++ b) = emittedDiffs a ++ emittedDiffs b := by
  simp [emittedDiffs, List.filterMap_append]

/-- Case analysis of `flush`: either it is a no-op, or it emits a
tool-call / result pair for a diff that differs from the current
`sentDiff` and records that diff as sent. -/
theorem flush_sentDiff_cases (cfg : Configuration) (s : DiffState) (n : Nat) :
    flush cfg s n = ([], s, n) ∨
    ∃ d, s.sentDiff ≠ some d ∧
      flush cfg s n =
        ([ DiffEvent.toolCall "CodexDiff" n d (n + 1),
           DiffEvent.toolCallResult n "completed" (n + 2) ],
         { s with sentDiff := some d }, n + 3) := by
  unfold flush
  rcases s with ⟨pd, sd, pa⟩
  rcases cfg with ⟨dis⟩
  cases dis <;> cases pa <;> cases pd <;> simp
  case false.false.some d =>
    by_cases hd : d = "" <;> by_cases hs : sd = some d <;> simp [hd, hs]

/-- C1, counterexample.  The state reached by `record("")` from the initial
state under an enabled configuration satisfies none of the four no-op
conditions the claim lists (emission enabled, a diff has been recorded, no
patch was applied, and the recorded diff differs from `sentDiff`), yet
`flush()` emits nothing: the empty-string diff is a fifth no-op condition
the claim omits. -/
theorem c1_empty_diff_counterexample :
    (flush cfgEnabled (processDiff cfgEnabled initialDiffState "") 0).1 = [] ∧
    (flush cfgEnabled (processDiff cfgEnabled initialDiffState "") 0).2.1
      = processDiff cfgEnabled initialDiffState "" ∧
    (processDiff cfgEnabled initialDiffState "").previousDiff ≠ none ∧
    cfgEnabled.disableCodexDiffs = false ∧
    (processDiff cfgEnabled initialDiffState "").patchAppliedThisTurn = false ∧
    (processDiff cfgEnabled initialDiffState "").previousDiff
      ≠ (processDiff cfgEnabled initialDiffState "").sentDiff := by
  decide

/-- C1, amended.  `flush()` is a no-op (no events, state unchanged) exactly
when emission is disabled, no diff has been recorded, the recorded diff is
the empty string, a patch was applied this turn, or the recorded diff
equals `sentDiff`; in every other state it emits exactly one tool-call
event named CodexDiff whose `input.unified_diff` is the recorded diff,
immediately followed by one completed tool-call-result event carrying the
same `callId`, and sets `sentDiff` to the emitted diff.  Moreover a second
`flush()` immediately after any `flush()` emits nothing. -/
theorem c1_flush_characterization (cfg : Configuration) (s : DiffState) (n : Nat) :
    (flush cfg s n =
      (match s.previousDiff with
       | none => ([], s, n)
       | some d =>
         if cfg.disableCodexDiffs = true ∨ s.patchAppliedThisTurn = true
            ∨ d = "" ∨ s.sentDiff = some d
         then ([], s, n)
         else ([ DiffEvent.toolCall "CodexDiff" n d (n + 1),
                 DiffEvent.toolCallResult n "completed" (n + 2) ],
               { s with sentDiff := some d }, n + 3))) ∧
    (flush cfg (flush cfg s n).2.1 (flush cfg s n).2.2).1 = [] := by
  rcases s with ⟨pd, sd, pa⟩
  rcases cfg with ⟨dis⟩
  constructor
  · unfold flush
    cases dis <;> cases pa <;> cases pd <;> simp
    case false.false.some d =>
      by_cases hd : d = "" <;> by_cases hs : sd = some d <;> simp [hd, hs]
  · unfold flush
    cases dis <;> cases pa <;> cases pd <;> simp
    case false.false.some d =>
      by_cases hd : d = "" <;> by_cases hs : sd = some d <;> simp [hd, hs]

/-- C2.  Once a diff `D` has been sent (`sentDiff = D`), `reset()` keeps it
recorded as sent, and along any further sequence of operations the first
diff emitted by a `flush()` — if any — is different from `D`; in
particular, `D` is never re-emitted (not even after `reset()` followed by
`record(D)`) until a different diff has been emitted in between. -/
theorem c2_sent_diff_not_reemitted (cfg : Configuration) (D : String) (s : DiffState)
    (n : Nat) (ops : List DiffOp) (h : s.sentDiff = some D) :
    (reset s).sentDiff = some D ∧
    ∀ d, (emittedDiffs (runDiff cfg (s, n) ops).2).head? = some d → d ≠ D := by
  refine ⟨by simp [reset, h], ?_⟩
  induction ops generalizing s n with
  | nil =>
    intro d hd
    simp [runDiff, emittedDiffs] at hd
  | cons op ops ih =>
    intro d hd
    cases op with
    | record d' =>
      simp only [runDiff, stepDiff, List.nil_append] at hd
      exact ih (processDiff cfg s d') n (by rw [processDiff_sentDiff]; exact h) d hd
    | resetOp =>
      simp only [runDiff, stepDiff, List.nil_append] at hd
      exact ih (reset s) n (by simp [reset, h]) d hd
    | markPatchAppliedOp =>
      simp only [runDiff, stepDiff, List.nil_append] at hd
      exact ih (markPatchApplied s) n (by simp [markPatchApplied, h]) d hd
    | flushOp =>
      simp only [runDiff, stepDiff] at hd
      rcases flush_sentDiff_cases cfg s n with hfl | ⟨d₀, hne, hfl⟩
      · rw [hfl] at hd
        simp only [List.nil_append] at hd
        exact ih s n h d hd
      · rw [hfl] at hd
        rw [emittedDiffs_append] at hd
        simp only [emittedDiffs, List.filterMap] at hd
        intro hEq
        apply hne
        rw [h]
        simp at hd
        rw [hd, hEq]

/-- C2, witness.  After "A" has been sent, running `reset()`,
`record("A")`, `flush()` emits no first diff equal to "A". -/
theorem c2_sent_diff_not_reemitted_witness :
    (emittedDiffs (runDiff cfgEnabled
        ({ previousDiff := some "A", sentDiff := some "A", patchAppliedThisTurn := false }, 3)
        [DiffOp.resetOp, DiffOp.record "A", DiffOp.flushOp]).2).head? ≠ some "A" := by
  intro hd
  exact (c2_sent_diff_not_reemitted cfgEnabled "A"
      { previousDiff := some "A", sentDiff := some "A", patchAppliedThisTurn := false }
      3 [DiffOp.resetOp, DiffOp.record "A", DiffOp.flushOp] rfl).2 "A" hd rfl

/-- C3, counterexample.  The state reached from the initial state by
`record("A")`; `flush()` is reachable, and calling `reset()` there does not
restore the initial state: `sentDiff` remains "A" instead of null. -/
theorem c3_reset_counterexample :
    reset (runDiff cfgEnabled (initialDiffState, 0)
        [DiffOp.record "A", DiffOp.flushOp]).1.1 ≠ initialDiffState ∧
    (reset (runDiff cfgEnabled (initialDiffState, 0)
        [DiffOp.record "A", DiffOp.flushOp]).1.1).sentDiff = some "A" := by
  decide

/-- C3, amended.  In every state, `reset()` clears `previousDiff` to null
and `patchAppliedThisTurn` to false but preserves `sentDiff`; it restores
the initial state exactly in those states whose `sentDiff` is already
null. -/
theorem c3_reset_amended (s : DiffState) :
    reset s = { previousDiff := none, sentDiff := s.sentDiff,
                patchAppliedThisTurn := false } ∧
    (s.sentDiff = none → reset s = initialDiffState) := by
  refine ⟨rfl, fun h => ?_⟩
  simp [reset, initialDiffState, h]

/-- C3, witness for the amended claim at a concrete state. -/
theorem c3_reset_amended_witness :
    reset { previousDiff := some "x", sentDiff := none, patchAppliedThisTurn := true }
      = initialDiffState :=
  (c3_reset_amended
    { previousDiff := some "x", sentDiff := none, patchAppliedThisTurn := true }).2 rfl

/-- C10.  After `record("")`, `previousDiff` holds the empty string, and
`flush()` emits no events and leaves the whole state (in particular
`sentDiff`) unchanged, whatever the configuration and the rest of the
state: the empty diff is treated like an absent diff and never emitted. -/
theorem c10_flush_after_empty_record (cfg : Configuration) (s : DiffState) (n : Nat) :
    (processDiff cfg s "").previousDiff = some "" ∧
    flush cfg (processDiff cfg s "") n = ([], processDiff cfg s "", n) := by
  constructor
  · unfold processDiff; split <;> rfl
  · rcases s with ⟨pd, sd, pa⟩
    rcases cfg with ⟨dis⟩
    unfold processDiff flush
    cases dis <;> cases pa <;> simp

/- ----------------------------------------------------------------------
Session registry: shallow embedding of src/src/daemon/sessionRegistry.ts.
---------------------------------------------------------------------- -/

/-- Agent flavor enumeration (`z.enum(["claude", "codex", "gemini"])`). -/
inductive Flavor where
  | claude
  | codex
  | gemini
deriving DecidableEq, Repr

/-- Encryption variant (`z.union([z.literal("legacy"), z.literal("dataKey")])`). -/
inductive EncryptionVariant where
  | legacy
  | dataKey
deriving DecidableEq, Repr

/-- Result of `DaemonSessionMarkerSchema` validation.  `metadata` is the
uninterpreted optional `z.any()` field. -/
structure DaemonSessionMarker where
  pid : Int
  happySessionId : String
  happyHomeDir : String
  createdAt : Int
  updatedAt : Int
  flavor : Option Flavor
  startedBy : Option String
  cwd : Option String
  metadata : Option Json

/-- Read a field as `z.number().int().positive()`: present, an integer
numeric literal, strictly positive. -/
def asPosInt (v : Option Json) : Option Int :=
  match v with
  | some (.num true k) => if 0 < k then some k else none
  | _ => none

/-- Read a field as `z.number().int().nonnegative()`. -/
def asNonnegInt (v : Option Json) : Option Int :=
  match v with
  | some (.num true k) => if 0 ≤ k then some k else none
  | _ => none

/-- Read a field as `z.string()`: present and a string. -/
def asString (v : Option Json) : Option String :=
  match v with
  | some (.str s) => some s
  | _ => none

/-- Read a field as `z.string().optional()`: absent is fine, a present
value must be a string. -/
def asOptionalString (v : Option Json) : Option (Option String) :=
  match v with
  | none => some none
  | some (.str s) => some (some s)
  | some _ => none

/-- Read a field as the optional flavor enum. -/
def asOptionalFlavor (v : Option Json) : Option (Option Flavor) :=
  match v with
  | none => some none
  | some (.str s) =>
    if s = "claude" then some (some .claude)
    else if s = "codex" then some (some .codex)
    else if s = "gemini" then some (some .gemini)
    else none
  | some _ => none

/-- Read a field as the required flavor enum. -/
def asFlavor (v : Option Json) : Option Flavor :=
  match v with
  | some (.str s) =>
    if s = "claude" then some .claude
    else if s = "codex" then some .codex
    else if s = "gemini" then some .gemini
    else none
  | _ => none

/-- Read a field as the encryption variant union. -/
def asEncryptionVariant (v : Option Json) : Option EncryptionVariant :=
  match v with
  | some (.str s) =>
    if s = "legacy" then some .legacy
    else if s = "dataKey" then some .dataKey
    else none
  | _ => none

/-- `DaemonSessionMarkerSchema.safeParse`: succeeds on an object whose
required fields have the required shapes; unknown keys are ignored,
`metadata` accepts anything including absence. -/
def validateDaemonSessionMarker (j : Json) : Option DaemonSessionMarker :=
  match j with
  | .obj fields => do
    let pid ← asPosInt (List.lookup "pid" fields)
    let happySessionId ← asString (List.lookup "happySessionId" fields)
    let happyHomeDir ← asString (List.lookup "happyHomeDir" fields)
    let createdAt ← asPosInt (List.lookup "createdAt" fields)
    let updatedAt ← asPosInt (List.lookup "updatedAt" fields)
    let flavor ← asOptionalFlavor (List.lookup "flavor" fields)
    let startedBy ← asOptionalString (List.lookup "startedBy" fields)
    let cwd ← asOptionalString (List.lookup "cwd" fields)
    some { pid, happySessionId, happyHomeDir, createdAt, updatedAt,
           flavor, startedBy, cwd, metadata := List.lookup "metadata" fields }
  | _ => none

/-- JavaScript `s.startsWith(p)`, computed on the character lists (the
core `String.startsWith` does not reduce inside the kernel). -/
def strStartsWith (s p : String) : Bool :=
  s.data.take p.data.length == p.data

/-- JavaScript `s.endsWith(p)`, computed on the character lists. -/
def strEndsWith (s p : String) : Bool :=
  s.data.length ≥ p.data.length && s.data.drop (s.data.length - p.data.length) == p.data

/-- A directory entry as seen by `listSessionMarkers`: its file name and
the classified outcome of reading it (`none` = the read throws,
`some none` = not valid JSON, `some (some j)` = parses to `j`). -/
structure DirEntry where
  name : String
  content : Option (Option Json)

/-- Loop body of `listSessionMarkers` for one entry: skip entries without
the `pid-` / `.json` name shape, entries that fail to read or parse,
entries failing schema validation, and markers whose `happyHomeDir` is not
the configured home directory. -/
def keepMarkerEntry (happyHomeDir : String) (e : DirEntry) : Option DaemonSessionMarker :=
  if strStartsWith e.name "pid-" && strEndsWith e.name ".json" then
    match e.content with
    | some (some j) =>
      match validateDaemonSessionMarker j with
      | some m => if m.happyHomeDir = happyHomeDir then some m else none
      | none => none
    | _ => none
  else none

/-- `listSessionMarkers`: tolerant fold over the directory entries. -/
def listSessionMarkers (happyHomeDir : String) : List DirEntry → List DaemonSessionMarker
  | [] => []
  | e :: rest =>
    match keepMarkerEntry happyHomeDir e with
    | some m => m :: listSessionMarkers happyHomeDir rest
    | none => listSessionMarkers happyHomeDir rest

/-- Claim-side name shape from the specification text: a file literally
named `pid-<n>.json` for some number `n` (at least one digit between the
`pid-` and the `.json`).  The source only checks the `pid-` and `.json`
affixes, so the two predicates differ. -/
def isPidNumberFileName (name : String) : Bool :=
  let d := name.data
  decide (9 < d.length) && (d.take 4 == "pid-".data)
    && (d.drop (d.length - 5) == ".json".data)
    && ((d.drop 4).take (d.length - 9)).all (fun c => c.isDigit)

/-- A well-formed marker document used in the C5 counterexample. -/
def markerJsonSample : Json :=
  .obj [("pid", .num true 1), ("happySessionId", .str "s1"),
        ("happyHomeDir", .str "/home/h"),
        ("createdAt", .num true 5), ("updatedAt", .num true 6)]

/-- C5, counterexample.  A directory entry named `pid-x.json` is not of
the form `pid-<n>.json`, yet `listSessionMarkers` returns its (valid,
home-matching) marker: the source only checks the `pid-` and `.json`
affixes of the name, never that the middle is a number. -/
theorem c5_list_markers_counterexample :
    listSessionMarkers "/home/h"
        [{ name := "pid-x.json", content := some (some markerJsonSample) }]
      = [{ pid := 1, happySessionId := "s1", happyHomeDir := "/home/h",
           createdAt := 5, updatedAt := 6, flavor := none,
           startedBy := none, cwd := none, metadata := none }] ∧
    isPidNumberFileName "pid-x.json" = false := by
  exact ⟨rfl, by decide⟩

/-- `keepMarkerEntry` succeeds exactly on readable, parsable,
schema-valid entries with the marker name shape whose `happyHomeDir`
matches the configured home. -/
theorem keepMarkerEntry_eq_some (home : String) (e : DirEntry) (m : DaemonSessionMarker) :
    keepMarkerEntry home e = some m ↔
      (strStartsWith e.name "pid-" && strEndsWith e.name ".json") = true ∧
      ∃ j, e.content = some (some j) ∧ validateDaemonSessionMarker j = some m ∧
        m.happyHomeDir = home := by
  unfold keepMarkerEntry
  constructor
  · intro h
    split at h
    case isTrue hname =>
      cases hc : e.content with
      | none => rw [hc] at h; exact absurd h (by simp)
      | some inner =>
        cases inner with
        | none => rw [hc] at h; exact absurd h (by simp)
        | some j =>
          rw [hc] at h
          simp only at h
          cases hv : validateDaemonSessionMarker j with
          | none => rw [hv] at h; exact absurd h (by simp)
          | some m' =>
            rw [hv] at h
            simp only at h
            split at h
            case isTrue hh =>
              cases h
              exact ⟨hname, j, rfl, hv, hh⟩
            case isFalse hh => exact absurd h (by simp)
    case isFalse hname => exact absurd h (by simp)
  · rintro ⟨hname, j, hc, hv, hh⟩
    rw [hname, hc]
    simp only [if_true]
    rw [hv]
    simp [hh]

/-- C5, amended.  A marker is in the result of `listSessionMarkers`
exactly when some directory entry whose name starts with `pid-` and ends
with `.json` reads, parses and validates to it and its `happyHomeDir`
equals the configured home directory; every other entry is skipped, and
the listing — a total function — never raises. -/
theorem c5_list_markers_characterization (home : String) (entries : List DirEntry)
    (m : DaemonSessionMarker) :
    m ∈ listSessionMarkers home entries ↔
      ∃ e, e ∈ entries ∧
        (strStartsWith e.name "pid-" && strEndsWith e.name ".json") = true ∧
        ∃ j, e.content = some (some j) ∧ validateDaemonSessionMarker j = some m ∧
          m.happyHomeDir = home := by
  induction entries with
  | nil => simp [listSessionMarkers]
  | cons e rest ih =>
    unfold listSessionMarkers
    cases hk : keepMarkerEntry home e with
    | none =>
      rw [ih]
      constructor
      · rintro ⟨e', he', hrest⟩
        exact ⟨e', List.mem_cons_of_mem e he', hrest⟩
      · rintro ⟨e', he', hname, j, hc, hv, hh⟩
        rcases List.mem_cons.mp he' with rfl | he'
        · exact absurd ((keepMarkerEntry_eq_some home e' m).mpr ⟨hname, j, hc, hv, hh⟩)
            (by rw [hk]; simp)
        · exact ⟨e', he', hname, j, hc, hv, hh⟩
    | some m' =>
      constructor
      · intro hmem
        rcases List.mem_cons.mp hmem with rfl | hmem
        · rcases (keepMarkerEntry_eq_some home e m).mp hk with ⟨hname, j, hc, hv, hh⟩
          exact ⟨e, List.mem_cons_self e rest, hname, j, hc, hv, hh⟩
        · rcases ih.mp hmem with ⟨e', he', hrest⟩
          exact ⟨e', List.mem_cons_of_mem e he', hrest⟩
      · rintro ⟨e', he', hname, j, hc, hv, hh⟩
        rcases List.mem_cons.mp he' with rfl | he'
        · have h2 := (keepMarkerEntry_eq_some home e' m).mpr ⟨hname, j, hc, hv, hh⟩
          rw [hk] at h2
          injection h2 with h3
          subst h3
          exact List.mem_cons_self _ _
        · exact List.mem_cons_of_mem m' (ih.mpr ⟨e', he', hname, j, hc, hv, hh⟩)

/-- C5, witness: the characterization applied to a concrete directory
holding one valid marker for this home, one valid marker for a different
home, and one corrupt file. -/
theorem c5_list_markers_characterization_witness :
    ({ pid := 1, happySessionId := "s1", happyHomeDir := "/home/h",
       createdAt := 5, updatedAt := 6, flavor := none,
       startedBy := none, cwd := none,
       metadata := none } : DaemonSessionMarker) ∈
      listSessionMarkers "/home/h"
        [{ name := "pid-7.json", content := some (some markerJsonSample) },
         { name := "pid-8.json", content := some none }] :=
  (c5_list_markers_characterization "/home/h" _ _).mpr
    ⟨{ name := "pid-7.json", content := some (some markerJsonSample) },
     by simp, by decide, markerJsonSample, rfl, rfl, rfl⟩

/-- Result of `PersistedHappySessionSchema` validation.  `metadata` and
`agentState` are the uninterpreted `z.any()` fields (absent is accepted);
version and timestamp constraints are recorded by the validators. -/
structure PersistedHappySession where
  sessionId : String
  encryptionKeyBase64 : String
  encryptionVariant : EncryptionVariant
  metadata : Option Json
  metadataVersion : Int
  agentState : Option Json
  agentStateVersion : Int
  flavor : Flavor
  vendorResume : Option String
  createdAt : Int
  updatedAt : Int

/-- `PersistedHappySessionSchema.safeParse` on a parsed JSON document. -/
def validatePersistedHappySession (j : Json) : Option PersistedHappySession :=
  match j with
  | .obj fields => do
    let sessionId ← asString (List.lookup "sessionId" fields)
    let encryptionKeyBase64 ← asString (List.lookup "encryptionKeyBase64" fields)
    let encryptionVariant ← asEncryptionVariant (List.lookup "encryptionVariant" fields)
    let metadataVersion ← asNonnegInt (List.lookup "metadataVersion" fields)
    let agentStateVersion ← asNonnegInt (List.lookup "agentStateVersion" fields)
    let flavor ← asFlavor (List.lookup "flavor" fields)
    let vendorResume ← asOptionalString (List.lookup "vendorResume" fields)
    let createdAt ← asPosInt (List.lookup "createdAt" fields)
    let updatedAt ← asPosInt (List.lookup "updatedAt" fields)
    some { sessionId, encryptionKeyBase64, encryptionVariant,
           metadata := List.lookup "metadata" fields, metadataVersion,
           agentState := List.lookup "agentState" fields, agentStateVersion,
           flavor, vendorResume, createdAt, updatedAt }
  | _ => none

/-- The base64 alphabet used by `Buffer.toString("base64")`. -/
def b64Char (n : Nat) : Char :=
  "ABCDEFGHIJKLMNOPQRSTUVWXYZabcdefghijklmnopqrstuvwxyz0123456789+/".data.getD n 'A'

/-- Standard base64 of a byte list (values taken mod 256), with padding. -/
def base64EncodeBytes : List Nat → List Char
  | [] => []
  | [a] =>
    let a := a % 256
    [b64Char (a / 4), b64Char (a % 4 * 16), '=', '=']
  | [a, b] =>
    let a := a % 256
    let b := b % 256
    [b64Char (a / 4), b64Char (a % 4 * 16 + b / 16), b64Char (b % 16 * 4), '=']
  | a :: b :: c :: rest =>
    let a' := a % 256
    let b' := b % 256
    let c' := c % 256
    b64Char (a' / 4) :: b64Char (a' % 4 * 16 + b' / 16)
      :: b64Char (b' % 16 * 4 + c' / 64) :: b64Char (c' % 64)
      :: base64EncodeBytes rest

/-- `Buffer.from(bytes).toString("base64")`. -/
def base64Encode (bytes : List Nat) : String :=
  String.mk (base64EncodeBytes bytes)

/-- Caller-supplied session argument of `writePersistedHappySession`.  The
encryption key is raw bytes; versions are caller-assigned integers. -/
structure SessionInput where
  id : String
  metadata : Json
  metadataVersion : Int
  agentState : Option Json
  agentStateVersion : Int
  encryptionKey : List Nat
  encryptionVariant : EncryptionVariant

/-- The `extra` argument of `writePersistedHappySession`.  A null or
absent `vendorResume` both become an absent field (`?? undefined`). -/
structure SessionExtra where
  flavor : Flavor
  vendorResume : Option String

/-- The sessions directory keyed by file name (one JSON document per
session id); atomic replace means plain map update. -/
def PersistedSessionStore := List (String × PersistedHappySession)

/-- Lookup of the document stored for a session id. -/
def storeLookup (st : PersistedSessionStore) (k : String) : Option PersistedHappySession :=
  List.lookup k st

/-- Atomic `writeJsonAtomic` onto `<sessionId>.json`: the new document
fully replaces any previous binding of the same key. -/
def storeSet (st : PersistedSessionStore) (k : String) (v : PersistedHappySession) :
    PersistedSessionStore :=
  (k, v) :: st.filter (fun p => p.1 != k)

/-- The record built by `writePersistedHappySession` before validation:
both timestamps are the current time, the key is base64-encoded, a missing
agent state becomes null, a missing vendor resume stays absent. -/
def mkPersistedRecord (now : Int) (session : SessionInput) (extra : SessionExtra) :
    PersistedHappySession :=
  { sessionId := session.id,
    encryptionKeyBase64 := base64Encode session.encryptionKey,
    encryptionVariant := session.encryptionVariant,
    metadata := some session.metadata,
    metadataVersion := session.metadataVersion,
    agentState := some (session.agentState.getD Json.null),
    agentStateVersion := session.agentStateVersion,
    flavor := extra.flavor,
    vendorResume := extra.vendorResume,
    createdAt := now, updatedAt := now }

/-- `writePersistedHappySession`: build the full record with fresh
timestamps, validate it against the schema (on this typed input the only
checks that can fail are the version and timestamp refinements; a failure
is the thrown `ValidationError`), then atomically replace the document. -/
def writePersistedHappySession (now : Int) (store : PersistedSessionStore)
    (session : SessionInput) (extra : SessionExtra) :
    Except String PersistedSessionStore :=
  let r := mkPersistedRecord now session extra
  if 0 ≤ r.metadataVersion ∧ 0 ≤ r.agentStateVersion ∧ 0 < r.createdAt ∧ 0 < r.updatedAt
  then .ok (storeSet store r.sessionId r)
  else .error "ValidationError"

/-- `readPersistedHappySession`: `none` when the file is absent or
unreadable (the catch branch), when its body is not JSON (`JSON.parse`
throws into the same catch), or when `safeParse` fails; the parsed record
otherwise.  Totality of this function is the never-throws guarantee. -/
def readPersistedHappySession (file : Option (Option Json)) : Option PersistedHappySession :=
  match file with
  | some (some j) => validatePersistedHappySession j
  | _ => none

/-- Looking up the key just written finds the new document. -/
theorem storeLookup_storeSet_self (st : PersistedSessionStore) (k : String)
    (v : PersistedHappySession) : storeLookup (storeSet st k v) k = some v := by
  simp [storeLookup, storeSet, List.lookup]

/-- Filtering out a key leaves lookups of other keys unchanged. -/
theorem lookup_filter_ne (st : PersistedSessionStore) (k k' : String) (h : k' ≠ k) :
    List.lookup k' (st.filter (fun p => p.1 != k)) = List.lookup k' st := by
  induction st with
  | nil => rfl
  | cons p st ih =>
    by_cases hp : p.1 = k
    · subst hp
      have hb : (k' == p.1) = false := beq_eq_false_iff_ne.mpr h
      simp [List.filter_cons, List.lookup, hb, ih]
    · have hb2 : (p.1 != k) = true := by simp [hp]
      simp only [List.filter_cons, hb2, cond_true, List.lookup]
      cases hk : k' == p.1 <;> simp [hk, ih]

/-- Writing one key leaves the documents of all other keys unchanged. -/
theorem storeLookup_storeSet_ne (st : PersistedSessionStore) (k k' : String)
    (v : PersistedHappySession) (h : k' ≠ k) :
    storeLookup (storeSet st k v) k' = storeLookup st k' := by
  unfold storeLookup storeSet
  rw [List.lookup_cons]
  have : (k' == k) = false := by simp [h]
  rw [this]
  exact lookup_filter_ne st k k' h

/-- C6.  Whenever `writePersistedHappySession` succeeds, the document now
stored under the session id has both `createdAt` and `updatedAt` equal to
the current time; the stored document is the same whatever the previous
store contents (so an original creation time is never preserved and the
record is fully replaced, never merged); and no other session's document
is touched. -/
theorem c6_write_fresh_timestamps (now : Int) (store : PersistedSessionStore)
    (session : SessionInput) (extra : SessionExtra) (store' : PersistedSessionStore)
    (h : writePersistedHappySession now store session extra = .ok store') :
    ∃ r, storeLookup store' session.id = some r ∧ r.createdAt = now ∧ r.updatedAt = now ∧
      (∀ store₂ store₂', writePersistedHappySession now store₂ session extra = .ok store₂' →
        storeLookup store₂' session.id = some r) ∧
      (∀ k, k ≠ session.id → storeLookup store' k = storeLookup store k) := by
  have hdef : ∀ (st : PersistedSessionStore),
      writePersistedHappySession now st session extra =
        if 0 ≤ session.metadataVersion ∧ 0 ≤ session.agentStateVersion
           ∧ 0 < now ∧ 0 < now
        then .ok (storeSet st session.id (mkPersistedRecord now session extra))
        else .error "ValidationError" := fun st => rfl
  rw [hdef] at h
  split at h
  · injection h with h'
    subst h'
    refine ⟨mkPersistedRecord now session extra,
      storeLookup_storeSet_self store session.id (mkPersistedRecord now session extra),
      rfl, rfl, ?_, ?_⟩
    · intro store₂ store₂' h₂
      rw [hdef] at h₂
      split at h₂
      · injection h₂ with h₂'
        subst h₂'
        exact storeLookup_storeSet_self store₂ session.id (mkPersistedRecord now session extra)
      · contradiction
    · intro k hk
      exact storeLookup_storeSet_ne store session.id k (mkPersistedRecord now session extra) hk
  · exact (Except.noConfusion h)

/-- Concrete write arguments for the C6 witness. -/
def sessionInputSample : SessionInput :=
  { id := "sid", metadata := Json.null, metadataVersion := 0,
    agentState := none, agentStateVersion := 0,
    encryptionKey := [1, 2, 3], encryptionVariant := .legacy }

/-- Concrete extra argument for the C6 witness. -/
def sessionExtraSample : SessionExtra := { flavor := .claude, vendorResume := none }

/-- C6, witness: a concrete successful write stores fresh timestamps. -/
theorem c6_write_fresh_timestamps_witness :
    ∃ store' r,
      writePersistedHappySession 1 [] sessionInputSample sessionExtraSample = .ok store' ∧
      storeLookup store' "sid" = some r ∧ r.createdAt = 1 ∧ r.updatedAt = 1 := by
  obtain ⟨r, h1, h2, h3, _, _⟩ :=
    c6_write_fresh_timestamps 1 [] sessionInputSample sessionExtraSample _ rfl
  exact ⟨_, r, rfl, h1, h2, h3⟩

/-- C7.  `readPersistedHappySession` returns the schema-validated record
of a readable, JSON-parsable document, and `none` in every failure case
(absent or unreadable file, invalid JSON, schema violation); the function
is total, which is the never-throws guarantee of the catch-and-log
source. -/
theorem c7_read_characterization :
    (∀ j, readPersistedHappySession (some (some j)) = validatePersistedHappySession j) ∧
    readPersistedHappySession none = none ∧
    readPersistedHappySession (some none) = none ∧
    (∀ file r, readPersistedHappySession file = some r →
      ∃ j, file = some (some j) ∧ validatePersistedHappySession j = some r) := by
  refine ⟨fun j => rfl, rfl, rfl, ?_⟩
  intro file r h
  match file with
  | some (some j) => exact ⟨j, rfl, h⟩
  | some none => exact absurd h (by simp [readPersistedHappySession])
  | none => exact absurd h (by simp [readPersistedHappySession])

/-- A well-formed persisted session document for the C7 witness. -/
def persistedJsonSample : Json :=
  .obj [("sessionId", .str "sid"), ("encryptionKeyBase64", .str "AQID"),
        ("encryptionVariant", .str "legacy"), ("metadataVersion", .num true 0),
        ("agentStateVersion", .num true 0), ("flavor", .str "codex"),
        ("createdAt", .num true 1), ("updatedAt", .num true 2)]

/-- C7, witness: reading a concrete valid document yields its validated
record. -/
theorem c7_read_characterization_witness :
    ∃ j, (some (some persistedJsonSample) : Option (Option Json)) = some (some j) ∧
      validatePersistedHappySession j = some
        { sessionId := "sid", encryptionKeyBase64 := "AQID",
          encryptionVariant := .legacy, metadata := none, metadataVersion := 0,
          agentState := none, agentStateVersion := 0, flavor := .codex,
          vendorResume := none, createdAt := 1, updatedAt := 2 } :=
  c7_read_characterization.2.2.2 (some (some persistedJsonSample)) _ rfl

/- ----------------------------------------------------------------------
Transcript Resume Resolver: shallow embedding of
src/src/codex/resumeCodex.ts.
---------------------------------------------------------------------- -/

/-- One file found by the recursive scan of the Codex sessions root:
its full path and modification time (`statSync(file).mtimeMs`). -/
structure CodexFileEntry where
  file : String
  mtimeMs : Nat
deriving DecidableEq, Repr

/-- Insertion step of the mtime sort.  Under the `foldr` below, `x` is
scanned earlier than every element of the already-sorted list, so `x` is
placed after the strictly newer entries and before any equal-mtime ones:
equal-mtime entries keep scan order, matching the stable
`entries.sort((a, b) => b.mtimeMs - a.mtimeMs)`. -/
def insertByMtimeDesc (x : CodexFileEntry) : List CodexFileEntry → List CodexFileEntry
  | [] => [x]
  | y :: ys => if x.mtimeMs < y.mtimeMs then y :: insertByMtimeDesc x ys else x :: y :: ys

/-- Stable sort by descending modification time. -/
def sortByMtimeDesc (l : List CodexFileEntry) : List CodexFileEntry :=
  l.foldr insertByMtimeDesc []

/-- `listCodexTranscriptFiles`: the recursive scan keeps regular files
with the `.jsonl` extension, then sorts them newest first. -/
def listCodexTranscriptFiles (entries : List CodexFileEntry) : List CodexFileEntry :=
  sortByMtimeDesc (entries.filter (fun e => strEndsWith e.file ".jsonl"))

/-- The candidate paths considered by `findCodexResumeFile` for a session
id: transcript files, newest first, whose path ends with
`-<sessionId>.jsonl`. -/
def codexResumeCandidates (entries : List CodexFileEntry) (sessionId : String) :
    List String :=
  ((listCodexTranscriptFiles entries).map (fun e => e.file)).filter
    (fun full => strEndsWith full ("-" ++ sessionId ++ ".jsonl"))

/-- `findCodexResumeFile`: null for a falsy session id (null or the empty
string); otherwise the first matching candidate, where `candidates[0] ||
null` also maps an empty-string path to null. -/
def findCodexResumeFile (entries : List CodexFileEntry) (sessionId : Option String) :
    Option String :=
  match sessionId with
  | none => none
  | some sid =>
    if sid = "" then none
    else
      match (codexResumeCandidates entries sid).head? with
      | some full => if full = "" then none else some full
      | none => none

/-- The `resume` argument of `resolveInitialCodexResumeTranscriptFile`:
`undefined`, `true` (resume most recent) or a literal string. -/
inductive ResumeArg where
  | noResume
  | mostRecent
  | target (s : String)
deriving DecidableEq, Repr

/-- `resolveInitialCodexResumeTranscriptFile` in the non-interactive case
(no TTY; the interactive menu is out of scope here).  `existingFiles`
models the set of paths on which `statSync(path).isFile()` succeeds.  The
guard `if (!resume)` also catches the empty string.  A string target that
is an existing file is used directly; otherwise it is treated as a session
id, and failure to find a matching transcript is the thrown error naming
the session.  `Except.ok none` is the all-null "start fresh" outcome. -/
def resolveInitialCodexResumeTranscriptFile (existingFiles : List String)
    (entries : List CodexFileEntry) : ResumeArg → Except String (Option String)
  | .noResume => .ok none
  | .target s =>
    if s = "" then .ok none
    else if s ∈ existingFiles then .ok (some s)
    else
      match findCodexResumeFile entries (some s) with
      | some resumeFile => .ok (some resumeFile)
      | none => .error ("Could not find Codex resume transcript for session: " ++ s)
  | .mostRecent => .ok ((listCodexTranscriptFiles entries).head?.map (fun e => e.file))

/-- Membership is invariant under the insertion step of the sort. -/
theorem mem_insertByMtimeDesc (x a : CodexFileEntry) (l : List CodexFileEntry) :
    a ∈ insertByMtimeDesc x l ↔ a = x ∨ a ∈ l := by
  induction l with
  | nil => simp [insertByMtimeDesc]
  | cons y ys ih =>
    unfold insertByMtimeDesc
    split
    · simp only [List.mem_cons, ih]
      try tauto
    · simp only [List.mem_cons]
      try tauto

/-- Membership is invariant under the mtime sort. -/
theorem mem_sortByMtimeDesc (a : CodexFileEntry) (l : List CodexFileEntry) :
    a ∈ sortByMtimeDesc l ↔ a ∈ l := by
  induction l with
  | nil => simp [sortByMtimeDesc]
  | cons y ys ih =>
    unfold sortByMtimeDesc at *
    simp [List.foldr_cons, mem_insertByMtimeDesc, ih]

/-- Every candidate path is the path of a scanned entry. -/
theorem codexResumeCandidates_sub (entries : List CodexFileEntry) (sid full : String)
    (h : full ∈ codexResumeCandidates entries sid) : ∃ e, e ∈ entries ∧ full = e.file := by
  unfold codexResumeCandidates listCodexTranscriptFiles at h
  have h1 := List.mem_of_mem_filter h
  rcases List.mem_map.mp h1 with ⟨e, he, rfl⟩
  rcases List.mem_filter.mp ((mem_sortByMtimeDesc e _).mp he) with ⟨he', _⟩
  exact ⟨e, he', rfl⟩

/-- C8, counterexample.  The resume target `""` is a string that names no
existing file, so the claim covers it: with a transcript `a-.jsonl`
present, the first candidate whose path ends in `-<sessionId>.jsonl`
(here `-.jsonl`) exists, so the claim predicts its selection; with no
candidate, the claim predicts the error naming the unfound session.  The
source guard `if (!resume) return null` is falsy on the empty string, so
in both situations the resolver instead returns the all-null start-fresh
outcome without consulting candidates and without failing. -/
theorem c8_empty_target_counterexample :
    ("" : String) ∉ ([] : List String) ∧
    (codexResumeCandidates [{ file := "a-.jsonl", mtimeMs := 5 }] "").head?
      = some "a-.jsonl" ∧
    resolveInitialCodexResumeTranscriptFile []
        [{ file := "a-.jsonl", mtimeMs := 5 }] (.target "") = .ok none ∧
    resolveInitialCodexResumeTranscriptFile [] [] (.target "") = .ok none :=
  ⟨by simp, rfl, rfl, rfl⟩

/-- C8, amended.  A string resume target that names no existing file is
treated as a session id only when it is non-empty: the empty string is
falsy and takes the start-fresh path, resolving null without consulting
candidates or failing.  A non-empty session id succeeds with the first
candidate transcript (from the mtime-descending list) whose path ends in
`-<sessionId>.jsonl` exactly when such a candidate exists, and otherwise —
and only otherwise — fails with the error naming the unfound session.
(The hypothesis that scanned paths are non-empty reflects that a path
returned by the directory scan is never the empty string.) -/
theorem c8_resume_by_id_characterization (existingFiles : List String)
    (entries : List CodexFileEntry) (sid : String) (hnotfile : sid ∉ existingFiles)
    (hne : ∀ e, e ∈ entries → e.file ≠ "") :
    (sid = "" →
      resolveInitialCodexResumeTranscriptFile existingFiles entries (.target sid)
        = .ok none) ∧
    (sid ≠ "" →
      (∀ full,
        resolveInitialCodexResumeTranscriptFile existingFiles entries (.target sid)
          = .ok (some full) →
        (codexResumeCandidates entries sid).head? = some full) ∧
      (∀ full, (codexResumeCandidates entries sid).head? = some full →
        resolveInitialCodexResumeTranscriptFile existingFiles entries (.target sid)
          = .ok (some full)) ∧
      (codexResumeCandidates entries sid = [] ↔
        resolveInitialCodexResumeTranscriptFile existingFiles entries (.target sid)
          = .error ("Could not find Codex resume transcript for session: " ++ sid))) := by
  constructor
  · intro h
    subst h
    rfl
  intro hsid
  have hhead : ∀ full, (codexResumeCandidates entries sid).head? = some full → full ≠ "" := by
    intro full hf
    rcases codexResumeCandidates_sub entries sid full (List.mem_of_mem_head? hf) with ⟨e, he, rfl⟩
    exact hne e he
  have hres1 : ∀ full, (codexResumeCandidates entries sid).head? = some full →
      resolveInitialCodexResumeTranscriptFile existingFiles entries (.target sid)
        = .ok (some full) := by
    intro full h
    simp only [resolveInitialCodexResumeTranscriptFile, findCodexResumeFile]
    rw [if_neg hsid, if_neg hnotfile, if_neg hsid, h]
    simp [hhead full h]
  have hres2 : (codexResumeCandidates entries sid).head? = none →
      resolveInitialCodexResumeTranscriptFile existingFiles entries (.target sid)
        = .error ("Could not find Codex resume transcript for session: " ++ sid) := by
    intro h
    simp only [resolveInitialCodexResumeTranscriptFile, findCodexResumeFile]
    rw [if_neg hsid, if_neg hnotfile, if_neg hsid, h]
  refine ⟨?_, hres1, ?_⟩
  · intro full h
    cases hh : (codexResumeCandidates entries sid).head? with
    | none =>
      rw [hres2 hh] at h
      exact absurd h (by simp)
    | some full' =>
      rw [hres1 full' hh] at h
      simp only [Except.ok.injEq] at h
      exact h
  · constructor
    · intro hnil
      exact hres2 (by rw [hnil]; rfl)
    · intro herr
      cases hh : (codexResumeCandidates entries sid).head? with
      | none => exact List.head?_eq_none_iff.mp hh
      | some full =>
        rw [hres1 full hh] at herr
        exact absurd herr (by simp)

/-- Concrete transcript listing for the C8 witness (the section 8
example). -/
def codexEntriesSample : List CodexFileEntry :=
  [{ file := "a-111.jsonl", mtimeMs := 10 }, { file := "b-222.jsonl", mtimeMs := 5 }]

/-- C8, witness: resuming by the non-empty id "222" over the sample
listing selects `b-222.jsonl`. -/
theorem c8_resume_by_id_characterization_witness :
    resolveInitialCodexResumeTranscriptFile [] codexEntriesSample (.target "222")
      = .ok (some "b-222.jsonl") :=
  ((c8_resume_by_id_characterization [] codexEntriesSample "222" (by simp)
    (by decide)).2 (by decide)).2.1 "b-222.jsonl" (by rfl)

/-- The summary text carried by one stdout line of the `codex exec`
subprocess, when the line is JSON of shape
`{type: "item.completed", item: {type: "agent_message", text}}`
with a string `text`; `none` otherwise (including unparsable lines,
modelled as `none` inputs). -/
def agentMessageText (line : Option Json) : Option String :=
  match line with
  | none => none
  | some j =>
    match j.getField? "type", j.getField? "item" with
    | some (.str t), some item =>
      if t = "item.completed" then
        match item.getField? "type", item.getField? "text" with
        | some (.str it), some (.str txt) =>
          if it = "agent_message" then some txt else none
        | _, _ => none
      else none
    | _, _ => none

/-- `generateCodexExecResumeSummary`: `none` on a spawn or runtime error;
otherwise a fold over the stdout lines keeping the text of the last
matching `agent_message` event (`best` in the source), resolved trimmed,
with a falsy or all-whitespace `best` degrading to `none` (this also
covers the stderr "Session not found" branch, which resolves null). -/
def generateCodexExecResumeSummary (outcome : Option (List (Option Json))) :
    Option (List Char) :=
  match outcome with
  | none => none
  | some lines =>
    let best := lines.foldl
      (fun best line =>
        match agentMessageText line with
        | some t => some t
        | none => best)
      (none : Option String)
    match best with
    | some t => if (jsTrim t.data).isEmpty then none else some (jsTrim t.data)
    | none => none

/-- Claim-side reduction, following the specification words: the summary
is the text of the last line whose shape matches, untouched; `none` when
no line matches or the subprocess fails. -/
def execResumeSummarySpec (outcome : Option (List (Option Json))) : Option (List Char) :=
  match outcome with
  | none => none
  | some lines => ((lines.filterMap agentMessageText).getLast?).map (fun t => t.data)

/-- A subprocess stdout line whose agent message text has surrounding
whitespace. -/
def agentLineSpaced : Option Json :=
  some (.obj [("type", .str "item.completed"),
              ("item", .obj [("type", .str "agent_message"), ("text", .str " hi ")])])

/-- A subprocess stdout line whose agent message text is all whitespace. -/
def agentLineBlank : Option Json :=
  some (.obj [("type", .str "item.completed"),
              ("item", .obj [("type", .str "agent_message"), ("text", .str " ")])])

/-- C4, counterexample.  On a stdout consisting of one matching line with
text " hi ", the claim predicts the summary " hi " but the code returns
the trimmed "hi"; on one matching line whose text is all whitespace, the
claim predicts that text but the code returns null. -/
theorem c4_exec_summary_counterexample :
    execResumeSummarySpec (some [agentLineSpaced]) = some " hi ".data ∧
    generateCodexExecResumeSummary (some [agentLineSpaced]) = some "hi".data ∧
    "hi".data ≠ " hi ".data ∧
    execResumeSummarySpec (some [agentLineBlank]) = some " ".data ∧
    generateCodexExecResumeSummary (some [agentLineBlank]) = none :=
  ⟨rfl, rfl, by decide, rfl, rfl⟩

/-- Prepending to a list moves its last element only when the tail is
empty. -/
theorem getLast?_cons_or {α : Type} (t : α) (xs : List α) :
    (t :: xs).getLast? = xs.getLast?.or (some t) := by
  induction xs generalizing t with
  | nil => rfl
  | cons b l ih =>
    rw [List.getLast?_cons_cons, ih b]
    cases hx : l.getLast? <;> rfl

/-- The last-wins fold over stdout lines computes the last matching text
(or keeps the initial accumulator when no line matches). -/
theorem foldl_last_match (lines : List (Option Json)) (init : Option String) :
    lines.foldl
        (fun best line =>
          match agentMessageText line with
          | some t => some t
          | none => best)
        init
      = ((lines.filterMap agentMessageText).getLast?).or init := by
  induction lines generalizing init with
  | nil => rfl
  | cons l ls ih =>
    simp only [List.foldl_cons, List.filterMap_cons]
    cases hl : agentMessageText l with
    | none =>
      dsimp only
      exact ih init
    | some t =>
      dsimp only
      rw [ih (some t), getLast?_cons_or t (List.filterMap agentMessageText ls)]
      cases hx : (List.filterMap agentMessageText ls).getLast? <;> rfl

/-- C4, amended.  The exec-summary reduction returns the trimmed text of
the last stdout line that parses with the matching shape, or null when
that trimmed text is empty, when no line matches, or when the subprocess
fails to spawn or errors; no error propagates (the function is total). -/
theorem c4_exec_summary_amended (outcome : Option (List (Option Json))) :
    generateCodexExecResumeSummary outcome =
      match outcome with
      | none => none
      | some lines =>
        match (lines.filterMap agentMessageText).getLast? with
        | some t => if (jsTrim t.data).isEmpty then none else some (jsTrim t.data)
        | none => none := by
  cases outcome with
  | none => rfl
  | some lines =>
    have hgen : generateCodexExecResumeSummary (some lines)
        = (match (lines.foldl
              (fun best line =>
                match agentMessageText line with
                | some t => some t
                | none => best)
              (none : Option String)) with
          | some t => if (jsTrim t.data).isEmpty then none else some (jsTrim t.data)
          | none => none) := rfl
    rw [hgen, foldl_last_match lines none]
    show (match ((lines.filterMap agentMessageText).getLast?).or none with
          | some t => if (jsTrim t.data).isEmpty then none else some (jsTrim t.data)
          | none => none)
        = (match (lines.filterMap agentMessageText).getLast? with
          | some t => if (jsTrim t.data).isEmpty then none else some (jsTrim t.data)
          | none => none)
    cases (lines.filterMap agentMessageText).getLast? <;> rfl

/-- Message role in a parsed transcript. -/
inductive Role where
  | user
  | assistant
deriving DecidableEq, Repr

/-- One `TranscriptMessage` produced by parsing a transcript file. -/
structure TranscriptMsg where
  role : Role
  text : List Char
deriving DecidableEq, Repr

/-- The fixed message length cap of
`buildCodexResumeContextFromTranscript`. -/
def MAX_MESSAGE_CHARS : Nat := 8000

/-- The marker appended to a truncated message body, exactly as the
bytes of the source file decode: a newline, the three characters of a
double-encoded ellipsis (the UTF-8 bytes of U+2026 read back as
Windows-1252), then the bracketed word - 15 characters in all. -/
def truncationMarker : List Char := "\n\u00E2\u20AC\u00A6[truncated]".data

/-- The clipping step of `pushMessage`: a trimmed body longer than the cap
is cut at the cap and the truncation marker appended. -/
def clipMessage (cap : Nat) (t : List Char) : List Char :=
  if cap < t.length then t.take cap ++ truncationMarker else t

/-- `pushMessage` of `buildCodexResumeContextFromTranscript`: trim the
body; drop it when empty; drop it when the previous kept message has the
same role and the same text as the trimmed body; otherwise append the
(possibly clipped) message. -/
def pushMessage (cap : Nat) (messages : List TranscriptMsg) (role : Role)
    (text : List Char) : List TranscriptMsg :=
  let trimmed := jsTrim text
  if trimmed = [] then messages
  else
    match messages.getLast? with
    | some last =>
      if last.role = role ∧ last.text = trimmed then messages
      else messages ++ [{ role, text := clipMessage cap trimmed }]
    | none => messages ++ [{ role, text := clipMessage cap trimmed }]

/-- The text parts of a `response_item` message `content` field: the
`text` members of an array of objects, or a bare string. -/
def contentParts (content : Option Json) : List String :=
  match content with
  | some (.arr cs) =>
    cs.filterMap fun c =>
      match c with
      | .obj fs =>
        match List.lookup "text" fs with
        | some (.str s) => some s
        | _ => none
      | _ => none
  | some (.str s) => [s]
  | _ => []

/-- `parts.join("\n")` on character lists. -/
def joinWithNewline : List String → List Char
  | [] => []
  | [s] => s.data
  | s :: rest => s.data ++ '\n' :: joinWithNewline rest

/-- The per-line step of the transcript parse loop: recognizes the
`session_meta` record (no message), the structured `response_item` message
shape, and the simpler `event_msg` user/assistant shape. -/
def processTranscriptLine (cap : Nat) (messages : List TranscriptMsg) (j : Json) :
    List TranscriptMsg :=
  match j.getField? "type" with
  | some (.str t) =>
    if t = "session_meta" then messages
    else if t = "response_item" then
      match j.getField? "payload" with
      | some (.obj fs) =>
        match List.lookup "type" fs with
        | some (.str pt) =>
          if pt = "message" then
            match List.lookup "role" fs with
            | some (.str r) =>
              if r = "user" ∨ r = "assistant" then
                if (contentParts (List.lookup "content" fs)) = [] then messages
                else
                  pushMessage cap messages
                    (if r = "assistant" then Role.assistant else Role.user)
                    (joinWithNewline (contentParts (List.lookup "content" fs)))
              else messages
            | _ => messages
          else messages
        | _ => messages
      | _ => messages
    else if t = "event_msg" then
      match j.getField? "payload" with
      | some (.obj fs) =>
        match List.lookup "type" fs with
        | some (.str pt) =>
          let m1 :=
            if pt = "user_message" then
              match List.lookup "message" fs with
              | some (.str m) => pushMessage cap messages Role.user m.data
              | _ => messages
            else messages
          if pt = "agent_message" then
            match List.lookup "message" fs with
            | some (.str m) => pushMessage cap m1 Role.assistant m.data
            | _ => m1
          else m1
        | _ => messages
      | _ => messages
    else messages
  | _ => messages

/-- The transcript message list accumulated by
`buildCodexResumeContextFromTranscript`, parameterized by the cap; lines
that fail `JSON.parse` (`none` inputs) are skipped. -/
def buildCodexResumeMessagesAux (cap : Nat) (lines : List (Option Json)) :
    List TranscriptMsg :=
  lines.foldl
    (fun msgs line =>
      match line with
      | none => msgs
      | some j => processTranscriptLine cap msgs j)
    []

/-- The transcript message list with the fixed source cap. -/
def buildCodexResumeMessages (lines : List (Option Json)) : List TranscriptMsg :=
  buildCodexResumeMessagesAux MAX_MESSAGE_CHARS lines

/-- Dropping leading whitespace leaves a run of letters unchanged. -/
theorem dropWhile_replicate_a (n : Nat) :
    List.dropWhile isJsWhitespace (List.replicate n 'a') = List.replicate n 'a' := by
  cases n with
  | zero => rfl
  | succ m =>
    rw [List.replicate_succ, List.dropWhile_cons]
    simp [show isJsWhitespace 'a' = false from by decide]

/-- Trimming a run of letters is the identity. -/
theorem jsTrim_replicate_a (n : Nat) :
    jsTrim (List.replicate n 'a') = List.replicate n 'a' := by
  unfold jsTrim
  rw [dropWhile_replicate_a, List.reverse_replicate, dropWhile_replicate_a,
    List.reverse_replicate]

/-- A non-empty run of letters is not the empty list. -/
theorem replicate_succ_ne_nil (n : Nat) : List.replicate (n + 1) 'a' ≠ [] := by
  rw [List.replicate_succ]
  exact List.cons_ne_nil _ _

/-- Length of the truncation marker. -/
theorem truncationMarker_length : truncationMarker.length = 15 := rfl

/-- Clipping a run of letters one character over the cap. -/
theorem clipMessage_long (cap : Nat) :
    clipMessage cap (List.replicate (cap + 1) 'a')
      = List.replicate cap 'a' ++ truncationMarker := by
  unfold clipMessage
  rw [List.length_replicate, if_pos (Nat.lt_succ_self cap)]
  congr 1
  rw [List.take_replicate]
  congr 1
  omega

/-- The stored form of the over-cap sample message. -/
def truncatedLongMsg (cap : Nat) : TranscriptMsg :=
  { role := Role.user, text := List.replicate cap 'a' ++ truncationMarker }

/-- Pushing an over-cap message onto an empty list stores it truncated. -/
theorem pushMessage_nil_long (cap : Nat) :
    pushMessage cap [] Role.user (List.replicate (cap + 1) 'a')
      = [truncatedLongMsg cap] := by
  simp only [pushMessage, jsTrim_replicate_a]
  rw [if_neg (replicate_succ_ne_nil cap)]
  simp only [List.getLast?_nil]
  rw [List.nil_append, clipMessage_long]
  rfl

/-- Pushing the same over-cap message again stores a second copy: the dedup
comparison is against the truncated stored text, which can never equal the
raw trimmed text of an over-cap message. -/
theorem pushMessage_dup_long (cap : Nat) :
    pushMessage cap [truncatedLongMsg cap] Role.user (List.replicate (cap + 1) 'a')
      = [truncatedLongMsg cap, truncatedLongMsg cap] := by
  have hne : ¬((truncatedLongMsg cap).text = List.replicate (cap + 1) 'a') := by
    intro hEq
    have hlen := congrArg List.length hEq
    simp only [truncatedLongMsg, List.length_append, List.length_replicate,
      truncationMarker_length] at hlen
    omega
  simp only [pushMessage, jsTrim_replicate_a]
  rw [if_neg (replicate_succ_ne_nil cap)]
  simp only [List.getLast?_singleton]
  rw [if_neg (fun hc => hne hc.2)]
  rw [clipMessage_long]
  rfl

/-- A transcript line carrying a user message of `cap + 1` letters. -/
def longUserLineJson (cap : Nat) : Json :=
  .obj [("type", .str "event_msg"),
        ("payload", .obj [("type", .str "user_message"),
                          ("message", .str (String.mk (List.replicate (cap + 1) 'a')))])]

set_option maxRecDepth 4000 in
/-- Processing the long user line is a single push of its message body. -/
theorem processLine_longUser (cap : Nat) (messages : List TranscriptMsg) :
    processTranscriptLine cap messages (longUserLineJson cap)
      = pushMessage cap messages Role.user (List.replicate (cap + 1) 'a') := rfl

/-- Two identical over-cap user lines produce two identical kept
messages, for any cap. -/
theorem buildAux_long_dup (cap : Nat) :
    buildCodexResumeMessagesAux cap
        [some (longUserLineJson cap), some (longUserLineJson cap)]
      = [truncatedLongMsg cap, truncatedLongMsg cap] := by
  show processTranscriptLine cap
      (processTranscriptLine cap [] (longUserLineJson cap))
      (longUserLineJson cap) = _
  rw [processLine_longUser, processLine_longUser, pushMessage_nil_long, pushMessage_dup_long]

/-- C9, counterexample.  Two identical consecutively parsed user messages
of 8001 characters — same role, same (trimmed) text — are both kept: the
dedup check compares the new trimmed text against the stored text of the
previous message, which for an over-cap message is the truncated form and
therefore never matches, so the output ends with two equal consecutive
entries where the claim requires one. -/
theorem c9_consecutive_dup_counterexample :
    buildCodexResumeMessages
        [some (longUserLineJson MAX_MESSAGE_CHARS), some (longUserLineJson MAX_MESSAGE_CHARS)]
      = [truncatedLongMsg MAX_MESSAGE_CHARS, truncatedLongMsg MAX_MESSAGE_CHARS] :=
  buildAux_long_dup MAX_MESSAGE_CHARS

/-- Adjacent-pair property the amended C9 claim asserts: no two adjacent
kept messages agree in role and text unless the second exceeds the cap
(i.e. was truncated). -/
def noShortDup (cap : Nat) (a b : TranscriptMsg) : Prop :=
  ¬(a.role = b.role ∧ a.text = b.text ∧ b.text.length ≤ cap)

/-- `pushMessage` preserves the adjacent-pair property: a pushed message
either got truncated (length above the cap) or is stored as its trimmed
text, which the dedup check guarantees differs from the previous entry. -/
theorem pushMessage_chain (cap : Nat) (msgs : List TranscriptMsg) (role : Role)
    (text : List Char) (h : List.Chain' (noShortDup cap) msgs) :
    List.Chain' (noShortDup cap) (pushMessage cap msgs role text) := by
  simp only [pushMessage]
  split
  · exact h
  split
  next last heq =>
    split
    · exact h
    next hcond =>
      rw [List.chain'_append]
      refine ⟨h, List.chain'_singleton _, ?_⟩
      intro x hx y hy
      rw [heq] at hx
      simp only [Option.mem_def, Option.some.injEq] at hx
      simp only [List.head?_cons, Option.mem_def, Option.some.injEq] at hy
      subst hx
      subst hy
      rintro ⟨h1, h2, h3⟩
      by_cases hlong : cap < (jsTrim text).length
      · have hlen : (clipMessage cap (jsTrim text)).length
            = cap + truncationMarker.length := by
          rw [clipMessage, if_pos hlong, List.length_append, List.length_take]
          omega
        rw [truncationMarker_length] at hlen
        simp only [] at h3
        rw [hlen] at h3
        omega
      · have hclip : clipMessage cap (jsTrim text) = jsTrim text := by
          rw [clipMessage, if_neg hlong]
        exact hcond ⟨h1, h2.trans hclip⟩
  next heq =>
    rw [List.getLast?_eq_none_iff] at heq
    subst heq
    rw [List.nil_append]
    exact List.chain'_singleton _

/-- The per-line transcript step preserves the adjacent-pair property. -/
theorem processTranscriptLine_chain (cap : Nat) (msgs : List TranscriptMsg) (j : Json)
    (h : List.Chain' (noShortDup cap) msgs) :
    List.Chain' (noShortDup cap) (processTranscriptLine cap msgs j) := by
  unfold processTranscriptLine
  repeat' first
    | exact h
    | exact pushMessage_chain _ _ _ _ h
    | exact pushMessage_chain _ _ _ _ (pushMessage_chain _ _ _ _ h)
    | split

/-- C9, amended.  In the transcript message list, no two consecutive kept
messages have the same role and the same text with the second at most the
8000-character cap: consecutive duplicate (role, trimmed text) pairs are
collapsed to one entry whenever the text does not exceed the cap; over-cap
(truncated) messages are compared against the truncated stored text and
may repeat (see the counterexample). -/
theorem c9_consecutive_dedup (lines : List (Option Json)) :
    List.Chain'
      (fun a b : TranscriptMsg =>
        ¬(a.role = b.role ∧ a.text = b.text ∧ b.text.length ≤ MAX_MESSAGE_CHARS))
      (buildCodexResumeMessages lines) := by
  have main : ∀ init, List.Chain' (noShortDup MAX_MESSAGE_CHARS) init →
      List.Chain' (noShortDup MAX_MESSAGE_CHARS)
        (lines.foldl
          (fun msgs line =>
            match line with
            | none => msgs
            | some j => processTranscriptLine MAX_MESSAGE_CHARS msgs j)
          init) := by
    induction lines with
    | nil => intro init hi; exact hi
    | cons l ls ih =>
      intro init hi
      rw [List.foldl_cons]
      cases l with
      | none => exact ih init hi
      | some j => exact ih _ (processTranscriptLine_chain _ init j hi)
  exact main [] List.chain'_nil
